import Mathlib

/-!
# Verification of the openpilot uploader daemon

Shallow embedding of `selfdrive/loggerd/uploader.py` and proofs of the
frozen claims about it.

Modelling conventions:
* A segment directory is a `SegDir`: its name, its creation time as
  reported by `os.stat` (`ctime`), the list of file names `os.listdir`
  returns for it (in listing order), and a `readable` flag — `false`
  models the directory vanishing or losing permission between the root
  scan and `os.listdir(path)`, in which case that call raises `OSError`.
* The root directory is an `FsTree`: the `os.path.isdir(root)` result and
  the segment list in root-listing order.  Real directory listings never
  repeat a name, so segment names are distinct in any tree of interest.
* Python generators are lazy; `next_file_to_upload` stops consuming
  `gen_upload_files()` at the first match.  The two passes are therefore
  embedded as recursive scans over the sorted segment list (`scanPass`)
  that stop at the first hit and surface an uncaught `OSError` as
  `Except.error ()`.
* `sorted(times_and_paths)` in `listdir_by_creation_date` orders the
  `(ctime, name)` pairs lexicographically, so the embedding sorts the
  segments by the relation `segKeyLe`.
-/

structure SegDir where
  name : String
  ctime : Nat
  files : List String
  readable : Bool
deriving Repr, DecidableEq

structure FsTree where
  rootIsDir : Bool
  segs : List SegDir
deriving Repr, DecidableEq

/-- Python `s.endswith(pat)`. -/
def strEndsWith (s pat : String) : Bool :=
  pat.data.isSuffixOf s.data

/-- The pass-1 filter: `name in ["rlog", "rlog.bz2"]`. -/
def logNameB (n : String) : Bool :=
  n == "rlog" || n == "rlog.bz2"

/-- The pass-2 filter: `not name.endswith(".lock") and not name.endswith(".tmp")`. -/
def pass2Ok (n : String) : Bool :=
  !(strEndsWith n ".lock") && !(strEndsWith n ".tmp")

/-- `any(name.endswith(".lock") for name in names)`: the write-marker test. -/
def hasLockB (s : SegDir) : Bool :=
  s.files.any (fun n => strEndsWith n ".lock")

/-- The segment contains a log artifact (a pass-1 candidate). -/
def hasLogB (s : SegDir) : Bool :=
  s.files.any logNameB

/-- Lexicographic order on character lists by code point: the order Python
uses to compare the name strings inside the sorted `(ctime, name)` pairs. -/
def charListLe : List Char → List Char → Bool
  | [], _ => true
  | _ :: _, [] => false
  | a :: as, b :: bs =>
    if a.toNat < b.toNat then true
    else if b.toNat < a.toNat then false
    else charListLe as bs

theorem charListLe_total : ∀ a b : List Char,
    charListLe a b = true ∨ charListLe b a = true
  | [], _ => Or.inl rfl
  | _ :: _, [] => Or.inr rfl
  | a :: as, b :: bs => by
    simp only [charListLe]
    rcases Nat.lt_trichotomy a.toNat b.toNat with h | h | h
    · left; simp [h]
    · have h1 : ¬ a.toNat < b.toNat := by omega
      have h2 : ¬ b.toNat < a.toNat := by omega
      simpa [h1, h2] using charListLe_total as bs
    · right; simp [h]

theorem charListLe_trans : ∀ a b c : List Char,
    charListLe a b = true → charListLe b c = true → charListLe a c = true
  | [], _, _, _, _ => rfl
  | _ :: _, [], _, hab, _ => by simp [charListLe] at hab
  | _ :: _, _ :: _, [], _, hbc => by simp [charListLe] at hbc
  | a :: as, b :: bs, c :: cs, hab, hbc => by
    simp only [charListLe] at hab hbc ⊢
    by_cases h1 : a.toNat < b.toNat
    · by_cases h3 : b.toNat < c.toNat
      · simp [show a.toNat < c.toNat by omega]
      · by_cases h4 : c.toNat < b.toNat
        · simp [h3, h4] at hbc
        · simp [show a.toNat < c.toNat by omega]
    · by_cases h2 : b.toNat < a.toNat
      · simp [h1, h2] at hab
      · by_cases h3 : b.toNat < c.toNat
        · simp [show a.toNat < c.toNat by omega]
        · by_cases h4 : c.toNat < b.toNat
          · simp [h3, h4] at hbc
          · have g1 : ¬ a.toNat < c.toNat := by omega
            have g2 : ¬ c.toNat < a.toNat := by omega
            simp [h1, h2] at hab
            simp [h3, h4] at hbc
            simp only [g1, g2, if_false]
            exact charListLe_trans as bs cs hab hbc

/-- Executable form of the sort key comparison used on the
`(ctime, name)` pairs of `listdir_with_creation_date`: creation time
first, then the name string. -/
def segKeyLeB (a b : SegDir) : Bool :=
  if a.ctime < b.ctime then true
  else if b.ctime < a.ctime then false
  else charListLe a.name.data b.name.data

/-- The order in which `sorted` puts the `(ctime, name)` pairs of
`listdir_with_creation_date`: lexicographic on creation time, then name. -/
def segKeyLe (a b : SegDir) : Prop :=
  segKeyLeB a b = true

instance : DecidableRel segKeyLe := fun a b =>
  inferInstanceAs (Decidable (segKeyLeB a b = true))

instance : IsTotal SegDir segKeyLe where
  total a b := by
    unfold segKeyLe segKeyLeB
    rcases Nat.lt_trichotomy a.ctime b.ctime with h | h | h
    · left; simp [h]
    · have h1 : ¬ a.ctime < b.ctime := by omega
      have h2 : ¬ b.ctime < a.ctime := by omega
      simpa [h1, h2] using charListLe_total a.name.data b.name.data
    · right; simp [h]

instance : IsTrans SegDir segKeyLe where
  trans a b c hab hbc := by
    unfold segKeyLe segKeyLeB at hab hbc ⊢
    by_cases h1 : a.ctime < b.ctime
    · by_cases h3 : b.ctime < c.ctime
      · simp [show a.ctime < c.ctime by omega]
      · by_cases h4 : c.ctime < b.ctime
        · simp [h3, h4] at hbc
        · simp [show a.ctime < c.ctime by omega]
    · by_cases h2 : b.ctime < a.ctime
      · simp [h1, h2] at hab
      · by_cases h3 : b.ctime < c.ctime
        · simp [show a.ctime < c.ctime by omega]
        · by_cases h4 : c.ctime < b.ctime
          · simp [h3, h4] at hbc
          · have g1 : ¬ a.ctime < c.ctime := by omega
            have g2 : ¬ c.ctime < a.ctime := by omega
            simp [h1, h2] at hab
            simp [h3, h4] at hbc
            simp only [g1, g2, if_false]
            exact charListLe_trans _ _ _ hab hbc

/-- `listdir_by_creation_date(root)`: the segments sorted by
`(ctime, name)`.  The source returns the names; the embedding keeps the
whole `SegDir` so the later `os.listdir(path)` lookups stay direct. -/
def listdir_by_creation_date (segs : List SegDir) : List SegDir :=
  List.insertionSort segKeyLe segs

/-- `os.path.join(logname, name)`: the upload key. -/
def mkKey (segname fname : String) : String :=
  segname ++ "/" ++ fname

/-- `os.path.join(root, logname, name)`: the local path. -/
def mkPath (root segname fname : String) : String :=
  root ++ "/" ++ segname ++ "/" ++ fname

/-- One priority pass of `next_file_to_upload`, fused with the lazy
`gen_upload_files` generator it consumes: walk the sorted segments, skip
any segment with a `.lock` marker, and inside each remaining segment
return the first file (in listing order) passing `pred`, tagged with the
priority class `cls`.  An unreadable segment makes `os.listdir(path)`
raise, which no caller catches: `Except.error ()`. -/
def scanPass (pred : String → Bool) (cls : Nat) (root : String) :
    List SegDir → Except Unit (Option (String × String × Nat))
  | [] => Except.ok none
  | seg :: rest =>
    if seg.readable = false then Except.error ()
    else if hasLockB seg then scanPass pred cls root rest
    else
      match seg.files.find? pred with
      | some n => Except.ok (some (mkKey seg.name n, mkPath root seg.name n, cls))
      | none => scanPass pred cls root rest

/-- `Uploader.next_file_to_upload`: pass 1 looks for `rlog`/`rlog.bz2`
(class 0); only if it finds nothing does pass 2 offer any non-marker,
non-temporary file (class 1).  `gen_upload_files` yields nothing when the
root is not a directory. -/
def next_file_to_upload (root : String) (t : FsTree) :
    Except Unit (Option (String × String × Nat)) :=
  if t.rootIsDir = false then Except.ok none
  else
    match scanPass logNameB 0 root (listdir_by_creation_date t.segs) with
    | Except.error e => Except.error e
    | Except.ok (some r) => Except.ok (some r)
    | Except.ok none => scanPass pass2Ok 1 root (listdir_by_creation_date t.segs)

/-!
## Upload executor model

`Uploader.upload` interacts with the outside world through three effects:
the `os.system` bzip2 pipeline, `os.path.getsize`, and the network phase
(`normal_upload`, which wraps `do_upload` = `api_get` credential request
followed by `requests.put`).  The outcome of each effect is an oracle input in
`UploadEnv`; the observable behaviour of the call is collected in
`UploadResult`.
-/

/-- Outcome of the network phase of one `do_upload` call:
`credRaise` — the `api_get` credential request raised;
`putRaise` — `api_get` succeeded but `open`/`requests.put` raised;
`putResp s` — `requests.put` completed with HTTP status `s`. -/
inductive NetOutcome where
  | credRaise : NetOutcome
  | putRaise : NetOutcome
  | putResp : Nat → NetOutcome
deriving Repr, DecidableEq

/-- The captured `(e, traceback.format_exc())` pair, by origin. -/
inductive UploadExc where
  | credExc : UploadExc
  | transferExc : UploadExc
deriving Repr, DecidableEq

/-- The `Uploader` instance fields touched by the network phase. -/
structure UpState where
  last_resp : Option Nat
  last_exc : Option UploadExc
deriving Repr, DecidableEq

/-- `Uploader.do_upload`: request the signed URL, then `requests.put` the
file; `self.last_resp` is set only when the put completes, and any
exception is recorded in `self.last_exc` and re-raised. -/
def do_upload (net : NetOutcome) (st : UpState) : Except UploadExc Unit × UpState :=
  match net with
  | NetOutcome.credRaise =>
    (Except.error UploadExc.credExc, { st with last_exc := some UploadExc.credExc })
  | NetOutcome.putRaise =>
    (Except.error UploadExc.transferExc, { st with last_exc := some UploadExc.transferExc })
  | NetOutcome.putResp s =>
    (Except.ok (), { st with last_resp := some s })

/-- `Uploader.normal_upload`: reset `last_resp`/`last_exc`, run
`do_upload` swallowing every exception, return `self.last_resp`. -/
def normal_upload (net : NetOutcome) (st : UpState) : Option Nat × UpState :=
  let st1 : UpState := { st with last_resp := none, last_exc := none }
  let r := do_upload net st1
  (r.2.last_resp, r.2)

/-- Oracle inputs for one `Uploader.upload` call. -/
structure UploadEnv where
  /-- The bzip2 shell pipeline exit status was 0. -/
  compressOk : Bool
  /-- `os.path.getsize(fn)` result; `none` models an `OSError`.  For a
  `log` file this is the size of the compressed `fn + ".bz2"`. -/
  size : Option Nat
  /-- Network phase outcome, used only if the size check passes. -/
  net : NetOutcome
deriving Repr, DecidableEq

/-- Observable behaviour of one `Uploader.upload` call. -/
structure UploadResult where
  /-- The returned success flag. -/
  success : Bool
  /-- The key actually used after the optional compression rename. -/
  finalKey : String
  /-- The local path actually used after the optional compression rename. -/
  finalFn : String
  /-- `os.unlink(fn)` was performed on `finalFn`. -/
  fileDeleted : Bool
  /-- `normal_upload` was invoked: a credential request was issued and a
  transfer attempted. -/
  networkAttempted : Bool
  /-- `self.clean_dirs()` was executed before returning. -/
  cleanRan : Bool
  /-- The `Uploader` state after the call. -/
  st : UpState
deriving Repr, DecidableEq

/-- The part of `Uploader.upload` from the `os.path.getsize` call onward:
size-0 files are deleted without any network activity; otherwise the
result of `normal_upload` is compared against status 200. -/
def upload_sized (key fn : String) (env : UploadEnv) (st : UpState) : UploadResult :=
  match env.size with
  | none => ⟨false, key, fn, false, false, false, st⟩
  | some sz =>
    if sz = 0 then ⟨true, key, fn, true, false, true, st⟩
    else
      let r := normal_upload env.net st
      if r.1 = some 200 then ⟨true, key, fn, true, true, true, r.2⟩
      else ⟨false, key, fn, false, true, true, r.2⟩

/-- `Uploader.upload`: a path ending in `"log"` is first compressed by the
external bzip2 pipeline, which atomically replaces `fn` with `fn + ".bz2"`
and appends the suffix to the key; a non-zero pipeline status returns
failure immediately (before `clean_dirs`). -/
def upload (key fn : String) (env : UploadEnv) (st : UpState) : UploadResult :=
  if strEndsWith fn "log" then
    if env.compressOk = false then ⟨false, key, fn, false, false, false, st⟩
    else upload_sized (key ++ ".bz2") (fn ++ ".bz2") env st
  else upload_sized key fn env st

/-- `Uploader.clean_dirs`: remove each root entry whose listing is empty.
The whole loop sits in one `try`, so the first `OSError` (an unreadable
entry) aborts the pass, leaving that entry and all later ones untouched. -/
def clean_dirs_go : List SegDir → List SegDir
  | [] => []
  | s :: rest =>
    if s.readable = false then s :: rest
    else if s.files.isEmpty then clean_dirs_go rest
    else s :: clean_dirs_go rest

/-- `clean_dirs` over the whole tree. -/
def clean_dirs (t : FsTree) : FsTree :=
  { t with segs := clean_dirs_go t.segs }

/-!
## Scheduler model (`uploader_fn`)

The inner loop of `uploader_fn` is driven by the sequence of upload
outcomes.  Each element of the input list is one iteration that found a
task: the success flag of the upload together with the `random.random()`-style
draw `u ∈ [0,1)` behind `random.uniform(0, backoff) = u * backoff`.
`run_uploads` threads the backoff variable exactly as the loop body does
and records, for each failed upload, the sleep it performs.
-/

/-- The value `backoff` is (re)set to: 0.1 seconds. -/
def backoff_base : ℚ := 1 / 10

/-- One recorded `time.sleep(backoff + random.uniform(0, backoff))`. -/
structure SleepRec where
  /-- The backoff value at the time of the sleep (the pre-jitter part). -/
  pre : ℚ
  /-- The jitter `random.uniform(0, backoff)` added to it. -/
  jitter : ℚ
deriving Repr, DecidableEq

/-- The inner-loop body of `uploader_fn`, iterated over a list of
`(success, u)` upload outcomes: success resets `backoff` to the base with
no sleep; failure sleeps `backoff + u * backoff` and doubles `backoff`.
Returns the recorded sleeps and the final backoff value. -/
def run_uploads : List (Bool × ℚ) → ℚ → List SleepRec × ℚ
  | [], b => ([], b)
  | (ok, u) :: rest, b =>
    if ok then run_uploads rest backoff_base
    else
      let r := run_uploads rest (2 * b)
      (⟨b, u * b⟩ :: r.1, r.2)

/-- What one pass through the top of the inner loop of `uploader_fn`
does, as a function of the exit flag and the scan outcome: the flag is
checked first; an empty scan breaks to the idle sleep; an uncaught scan
exception propagates out of the loop (nothing in `uploader_fn` catches
it); otherwise the chosen task is uploaded. -/
inductive IterOutcome where
  | exited : IterOutcome
  | idle : IterOutcome
  | worked : Bool → IterOutcome
deriving Repr, DecidableEq

/-- One iteration boundary of the `uploader_fn` inner loop, with the
oracle inputs of the `upload` call it makes when the scan yields a task:
`d = uploader.next_file_to_upload()` is run bare, so its error
propagates; otherwise `success = uploader.upload(key, fn)` feeds the
backoff handling, which never leaves the loop. -/
def uploader_iter (exitSet : Bool) (root : String) (t : FsTree)
    (env : UploadEnv) (st : UpState) : Except Unit IterOutcome :=
  if exitSet then Except.ok IterOutcome.exited
  else
    match next_file_to_upload root t with
    | Except.error e => Except.error e
    | Except.ok none => Except.ok IterOutcome.idle
    | Except.ok (some (k, fn, _)) =>
      Except.ok (IterOutcome.worked (upload k fn env st).success)

/-!
## Shared lemmas about the scan
-/

theorem charListLe_refl : ∀ a : List Char, charListLe a a = true
  | [] => rfl
  | a :: as => by
    simp only [charListLe, Nat.lt_irrefl, if_false]
    exact charListLe_refl as

theorem segKeyLe_refl (s : SegDir) : segKeyLe s s := by
  unfold segKeyLe segKeyLeB
  simp only [Nat.lt_irrefl, if_false]
  exact charListLe_refl s.name.data

/-- Anything a pass returns carries its own priority class and names a
file of a readable, marker-free segment of the scanned list. -/
theorem scanPass_sound (pred : String → Bool) (cls : Nat) (root : String) :
    ∀ (l : List SegDir) (k fn : String) (c : Nat),
      scanPass pred cls root l = Except.ok (some (k, fn, c)) →
      c = cls ∧ ∃ s ∈ l, s.readable = true ∧ hasLockB s = false ∧
        ∃ n ∈ s.files, pred n = true ∧ k = mkKey s.name n ∧ fn = mkPath root s.name n
  | [], k, fn, c, h => by simp [scanPass] at h
  | seg :: rest, k, fn, c, h => by
    unfold scanPass at h
    by_cases hr : seg.readable = false
    · simp [hr] at h
    · simp only [hr, if_false] at h
      by_cases hl : hasLockB seg
      · simp only [hl, if_true] at h
        obtain ⟨hc, s, hs, rest_props⟩ := scanPass_sound pred cls root rest k fn c h
        exact ⟨hc, s, List.mem_cons_of_mem _ hs, rest_props⟩
      · simp only [hl, if_false] at h
        cases hf : seg.files.find? pred with
        | some n =>
          rw [hf] at h
          have h2 : (Except.ok (some (mkKey seg.name n, mkPath root seg.name n, cls)) :
              Except Unit (Option (String × String × Nat))) = Except.ok (some (k, fn, c)) := h
          simp only [Except.ok.injEq, Option.some.injEq, Prod.mk.injEq] at h2
          obtain ⟨hk, hfn, hc⟩ := h2
          refine ⟨hc.symm, seg, List.mem_cons_self _ _, by simpa using hr,
            by simpa using hl, n, List.mem_of_find?_eq_some hf,
            List.find?_some hf, hk.symm, hfn.symm⟩
        | none =>
          rw [hf] at h
          obtain ⟨hc, s, hs, rest_props⟩ := scanPass_sound pred cls root rest k fn c h
          exact ⟨hc, s, List.mem_cons_of_mem _ hs, rest_props⟩

/-- A pass that finishes empty saw only readable segments, and every
marker-free segment it saw has no file passing the filter. -/
theorem scanPass_none (pred : String → Bool) (cls : Nat) (root : String) :
    ∀ l : List SegDir, scanPass pred cls root l = Except.ok none →
      ∀ s ∈ l, s.readable = true ∧
        (hasLockB s = false → ∀ n ∈ s.files, pred n = false)
  | [], _, s, hs => absurd hs (List.not_mem_nil s)
  | seg :: rest, h, s, hs => by
    unfold scanPass at h
    by_cases hr : seg.readable = false
    · simp [hr] at h
    · simp only [hr, if_false] at h
      by_cases hl : hasLockB seg
      · simp only [hl, if_true] at h
        rcases List.mem_cons.mp hs with rfl | hmem
        · exact ⟨by simpa using hr, fun hlf => absurd hl (by simp [hlf])⟩
        · exact scanPass_none pred cls root rest h s hmem
      · simp only [hl, if_false] at h
        cases hf : seg.files.find? pred with
        | some n => rw [hf] at h; exact absurd h (by simp)
        | none =>
          rw [hf] at h
          rcases List.mem_cons.mp hs with rfl | hmem
          · refine ⟨by simpa using hr, fun _ n hn => ?_⟩
            have := List.find?_eq_none.mp hf n hn
            simpa using this
          · exact scanPass_none pred cls root rest h s hmem

/-- A pass over readable segments never raises. -/
theorem scanPass_total (pred : String → Bool) (cls : Nat) (root : String) :
    ∀ l : List SegDir, (∀ s ∈ l, s.readable = true) →
      ∃ o, scanPass pred cls root l = Except.ok o
  | [], _ => ⟨none, rfl⟩
  | seg :: rest, hread => by
    unfold scanPass
    have hr : ¬ seg.readable = false := by
      simp [hread seg (List.mem_cons_self _ _)]
    simp only [hr, if_false]
    by_cases hl : hasLockB seg
    · simp only [hl, if_true]
      exact scanPass_total pred cls root rest
        (fun s hs => hread s (List.mem_cons_of_mem _ hs))
    · simp only [hl, if_false]
      cases hf : seg.files.find? pred with
      | some n => exact ⟨some (mkKey seg.name n, mkPath root seg.name n, cls), rfl⟩
      | none =>
        exact scanPass_total pred cls root rest
          (fun s hs => hread s (List.mem_cons_of_mem _ hs))

/-- On a sorted segment list, the segment a pass returns from is minimal
in the `(ctime, name)` order among all marker-free segments that contain
a file passing the filter. -/
theorem scanPass_min (pred : String → Bool) (cls : Nat) (root : String) :
    ∀ l : List SegDir, l.Sorted segKeyLe →
      ∀ (k fn : String) (c : Nat),
        scanPass pred cls root l = Except.ok (some (k, fn, c)) →
        ∃ s ∈ l, s.readable = true ∧ hasLockB s = false ∧
          (∃ n ∈ s.files, pred n = true ∧ k = mkKey s.name n ∧
            fn = mkPath root s.name n) ∧
          ∀ s2 ∈ l, hasLockB s2 = false → s2.files.any pred = true → segKeyLe s s2
  | [], _, k, fn, c, h => by simp [scanPass] at h
  | seg :: rest, hsort, k, fn, c, h => by
    obtain ⟨hhead, htail⟩ := List.sorted_cons.mp hsort
    unfold scanPass at h
    by_cases hr : seg.readable = false
    · simp [hr] at h
    · simp only [hr, if_false] at h
      by_cases hl : hasLockB seg
      · simp only [hl, if_true] at h
        obtain ⟨s, hs, hsr, hsl, hwit, hmin⟩ :=
          scanPass_min pred cls root rest htail k fn c h
        refine ⟨s, List.mem_cons_of_mem _ hs, hsr, hsl, hwit, fun s2 hs2 h2l h2p => ?_⟩
        rcases List.mem_cons.mp hs2 with rfl | hmem
        · exact absurd hl (by simp [h2l])
        · exact hmin s2 hmem h2l h2p
      · simp only [hl, if_false] at h
        cases hf : seg.files.find? pred with
        | some n =>
          rw [hf] at h
          have hk : k = mkKey seg.name n ∧ fn = mkPath root seg.name n ∧ c = cls := by
            have h2 : (Except.ok (some (mkKey seg.name n, mkPath root seg.name n, cls)) :
                Except Unit (Option (String × String × Nat))) = Except.ok (some (k, fn, c)) := h
            simp only [Except.ok.injEq, Option.some.injEq, Prod.mk.injEq] at h2
            exact ⟨h2.1.symm, h2.2.1.symm, h2.2.2.symm⟩
          refine ⟨seg, List.mem_cons_self _ _, by simpa using hr, by simpa using hl,
            ⟨n, List.mem_of_find?_eq_some hf, List.find?_some hf, hk.1, hk.2.1⟩,
            fun s2 hs2 _ _ => ?_⟩
          rcases List.mem_cons.mp hs2 with heq | hmem
          · rw [heq]; exact segKeyLe_refl _
          · exact hhead s2 hmem
        | none =>
          rw [hf] at h
          obtain ⟨s, hs, hsr, hsl, hwit, hmin⟩ :=
            scanPass_min pred cls root rest htail k fn c h
          refine ⟨s, List.mem_cons_of_mem _ hs, hsr, hsl, hwit, fun s2 hs2 h2l h2p => ?_⟩
          rcases List.mem_cons.mp hs2 with rfl | hmem
          · obtain ⟨n, hn, hp⟩ := List.any_eq_true.mp h2p
            exact absurd hp (by simpa using List.find?_eq_none.mp hf n hn)
          · exact hmin s2 hmem h2l h2p

/-- With every segment readable, the whole selection never raises. -/
theorem next_file_total (root : String) (t : FsTree)
    (hread : ∀ s ∈ t.segs, s.readable = true) :
    ∃ o, next_file_to_upload root t = Except.ok o := by
  unfold next_file_to_upload
  by_cases hd : t.rootIsDir = false
  · exact ⟨none, by simp [hd]⟩
  · simp only [hd, if_false]
    have hread2 : ∀ s ∈ listdir_by_creation_date t.segs, s.readable = true := by
      intro s hs
      exact hread s ((List.mem_insertionSort segKeyLe).mp hs)
    obtain ⟨o1, ho1⟩ := scanPass_total logNameB 0 root (listdir_by_creation_date t.segs) hread2
    rw [ho1]
    cases o1 with
    | some r => exact ⟨some r, rfl⟩
    | none => exact scanPass_total pass2Ok 1 root (listdir_by_creation_date t.segs) hread2

/-- Sorting the root listing neither adds nor drops segments. -/
theorem mem_listdir (s : SegDir) (l : List SegDir) :
    s ∈ listdir_by_creation_date l ↔ s ∈ l := by
  unfold listdir_by_creation_date
  exact List.mem_insertionSort segKeyLe

/-- The root listing comes out sorted by `(ctime, name)`. -/
theorem sorted_listdir (l : List SegDir) :
    (listdir_by_creation_date l).Sorted segKeyLe := by
  unfold listdir_by_creation_date
  exact List.sorted_insertionSort segKeyLe l

theorem hasLogB_iff (s : SegDir) :
    hasLogB s = true ↔ ∃ n, n ∈ s.files ∧ logNameB n = true := by
  unfold hasLogB
  exact List.any_eq_true

/-!
## Claim theorems
-/

/-- C1: `next_file_to_upload` never returns an artifact of a segment that
contains a write-marker file (a name ending in `.lock`): whatever it
returns, in either priority pass, keys a file of a marker-free segment of
the tree. -/
theorem C1_no_marked_segment (root : String) (t : FsTree) (k fn : String) (c : Nat)
    (h : next_file_to_upload root t = Except.ok (some (k, fn, c))) :
    ∃ s ∈ t.segs, hasLockB s = false ∧ ∃ n ∈ s.files, k = mkKey s.name n := by
  unfold next_file_to_upload at h
  by_cases hd : t.rootIsDir = false
  · rw [if_pos hd] at h
    exact absurd h (by simp)
  · rw [if_neg hd] at h
    cases h1 : scanPass logNameB 0 root (listdir_by_creation_date t.segs) with
    | error e =>
      rw [h1] at h
      exact absurd h (by simp)
    | ok o =>
      rw [h1] at h
      cases o with
      | some r =>
        obtain ⟨k0, fn0, c0⟩ := r
        have h2 : (Except.ok (some (k0, fn0, c0)) :
            Except Unit (Option (String × String × Nat))) = Except.ok (some (k, fn, c)) := h
        simp only [Except.ok.injEq, Option.some.injEq, Prod.mk.injEq] at h2
        obtain ⟨rfl, rfl, rfl⟩ := h2
        obtain ⟨_, s, hs, _, hsl, n, hn, _, hk, _⟩ :=
          scanPass_sound logNameB 0 root _ _ _ _ h1
        exact ⟨s, (mem_listdir s t.segs).mp hs, hsl, n, hn, hk⟩
      | none =>
        obtain ⟨_, s, hs, _, hsl, n, hn, _, hk, _⟩ :=
          scanPass_sound pass2Ok 1 root _ k fn c h
        exact ⟨s, (mem_listdir s t.segs).mp hs, hsl, n, hn, hk⟩

/-- C1 witness: a one-segment tree on which the selector returns a task. -/
theorem C1_no_marked_segment_witness :
    ∃ s ∈ (FsTree.mk true [SegDir.mk "a" 1 ["rlog"] true]).segs,
      hasLockB s = false ∧ ∃ n ∈ s.files, "a/rlog" = mkKey s.name n :=
  C1_no_marked_segment "/d" (FsTree.mk true [SegDir.mk "a" 1 ["rlog"] true])
    "a/rlog" "/d/a/rlog" 0 rfl

/-- C2: on a tree whose segments are all listable, if some marker-free
segment holds a log artifact then the selector returns a class-0 task,
and any class-1 answer certifies that no marker-free segment holds a log
artifact — independent of segment ages. -/
theorem C2_log_class_first (root : String) (t : FsTree)
    (hroot : t.rootIsDir = true)
    (hread : ∀ s ∈ t.segs, s.readable = true) :
    ((∃ s ∈ t.segs, hasLockB s = false ∧ hasLogB s = true) →
      ∃ k fn, next_file_to_upload root t = Except.ok (some (k, fn, 0))) ∧
    (∀ k fn, next_file_to_upload root t = Except.ok (some (k, fn, 1)) →
      ∀ s ∈ t.segs, hasLockB s = false → hasLogB s = false) := by
  have hnd : ¬ t.rootIsDir = false := by simp [hroot]
  have hread2 : ∀ s ∈ listdir_by_creation_date t.segs, s.readable = true :=
    fun s hs => hread s ((mem_listdir s t.segs).mp hs)
  constructor
  · rintro ⟨s, hs, hsl, hslog⟩
    obtain ⟨o1, ho1⟩ := scanPass_total logNameB 0 root (listdir_by_creation_date t.segs) hread2
    cases o1 with
    | none =>
      exfalso
      have hall := scanPass_none logNameB 0 root _ ho1 s ((mem_listdir s t.segs).mpr hs)
      obtain ⟨n, hn, hp⟩ := (hasLogB_iff s).mp hslog
      exact absurd hp (by simp [hall.2 hsl n hn])
    | some r =>
      obtain ⟨k, fn, c⟩ := r
      have hc := (scanPass_sound logNameB 0 root _ k fn c ho1).1
      refine ⟨k, fn, ?_⟩
      unfold next_file_to_upload
      rw [if_neg hnd, ho1]
      subst hc
      rfl
  · intro k fn h s hs hsl
    unfold next_file_to_upload at h
    rw [if_neg hnd] at h
    cases h1 : scanPass logNameB 0 root (listdir_by_creation_date t.segs) with
    | error e =>
      rw [h1] at h
      exact absurd h (by simp)
    | ok o =>
      rw [h1] at h
      cases o with
      | some r =>
        obtain ⟨k0, fn0, c0⟩ := r
        have h2 : (Except.ok (some (k0, fn0, c0)) :
            Except Unit (Option (String × String × Nat))) = Except.ok (some (k, fn, 1)) := h
        simp only [Except.ok.injEq, Option.some.injEq, Prod.mk.injEq] at h2
        have hc := (scanPass_sound logNameB 0 root _ k0 fn0 c0 h1).1
        rw [h2.2.2] at hc
        exact absurd hc (by simp)
      | none =>
        have hall := scanPass_none logNameB 0 root _ h1 s ((mem_listdir s t.segs).mpr hs)
        cases hflog : hasLogB s with
        | false => rfl
        | true =>
          obtain ⟨n, hn, hp⟩ := (hasLogB_iff s).mp hflog
          exact absurd hp (by simp [hall.2 hsl n hn])

/-- C2 witness: an eligible newer segment with a log beats an older
camera-only segment, and the class-1 direction holds vacuously. -/
theorem C2_log_class_first_witness :
    ((∃ s ∈ (FsTree.mk true
        [SegDir.mk "old" 1 ["fcam"] true, SegDir.mk "new" 9 ["rlog"] true]).segs,
      hasLockB s = false ∧ hasLogB s = true) →
      ∃ k fn, next_file_to_upload "/d" (FsTree.mk true
        [SegDir.mk "old" 1 ["fcam"] true, SegDir.mk "new" 9 ["rlog"] true]) =
          Except.ok (some (k, fn, 0))) ∧
    (∀ k fn, next_file_to_upload "/d" (FsTree.mk true
        [SegDir.mk "old" 1 ["fcam"] true, SegDir.mk "new" 9 ["rlog"] true]) =
          Except.ok (some (k, fn, 1)) →
      ∀ s ∈ (FsTree.mk true
        [SegDir.mk "old" 1 ["fcam"] true, SegDir.mk "new" 9 ["rlog"] true]).segs,
        hasLockB s = false → hasLogB s = false) :=
  C2_log_class_first "/d"
    (FsTree.mk true [SegDir.mk "old" 1 ["fcam"] true, SegDir.mk "new" 9 ["rlog"] true])
    rfl (by decide)

/-- C3 counterexample: two marker-free segments with equal creation
times, listed with `"b"` before `"a"`.  The claim says the tie goes to
the segment earlier in listing order (`"b"`), but the code sorts the
`(ctime, name)` pairs, so the name order wins and the log of segment
`"a"` is returned. -/
theorem C3_counterexample :
    (FsTree.mk true
        [SegDir.mk "b" 5 ["rlog"] true, SegDir.mk "a" 5 ["rlog"] true]).segs.map
      SegDir.name = ["b", "a"] ∧
    (FsTree.mk true
        [SegDir.mk "b" 5 ["rlog"] true, SegDir.mk "a" 5 ["rlog"] true]).segs.map
      SegDir.ctime = [5, 5] ∧
    next_file_to_upload "/d"
        (FsTree.mk true
          [SegDir.mk "b" 5 ["rlog"] true, SegDir.mk "a" 5 ["rlog"] true]) =
      Except.ok (some ("a/rlog", "/d/a/rlog", 0)) :=
  ⟨rfl, rfl, rfl⟩

/-- C3 amended: within priority class 0 the selector returns a log
artifact of a marker-free segment that is minimal in the order
`(ctime, name)` — creation time first, ties broken by the lexicographic
order of the segment names, not by directory-listing order. -/
theorem C3_oldest_log_segment (root : String) (t : FsTree) (k fn : String)
    (h : next_file_to_upload root t = Except.ok (some (k, fn, 0))) :
    ∃ s ∈ t.segs, hasLockB s = false ∧
      (∃ n ∈ s.files, logNameB n = true ∧ k = mkKey s.name n) ∧
      ∀ s2 ∈ t.segs, hasLockB s2 = false → hasLogB s2 = true → segKeyLe s s2 := by
  unfold next_file_to_upload at h
  by_cases hd : t.rootIsDir = false
  · rw [if_pos hd] at h
    exact absurd h (by simp)
  · rw [if_neg hd] at h
    cases h1 : scanPass logNameB 0 root (listdir_by_creation_date t.segs) with
    | error e =>
      rw [h1] at h
      exact absurd h (by simp)
    | ok o =>
      rw [h1] at h
      cases o with
      | none =>
        have hc := (scanPass_sound pass2Ok 1 root _ k fn 0 h).1
        exact absurd hc (by simp)
      | some r =>
        obtain ⟨k0, fn0, c0⟩ := r
        have h2 : (Except.ok (some (k0, fn0, c0)) :
            Except Unit (Option (String × String × Nat))) = Except.ok (some (k, fn, 0)) := h
        simp only [Except.ok.injEq, Option.some.injEq, Prod.mk.injEq] at h2
        obtain ⟨rfl, rfl, rfl⟩ := h2
        obtain ⟨s, hs, _, hsl, ⟨n, hn, hp, hk, _⟩, hmin⟩ :=
          scanPass_min logNameB 0 root _ (sorted_listdir t.segs) _ _ _ h1
        refine ⟨s, (mem_listdir s t.segs).mp hs, hsl, ⟨n, hn, hp, hk⟩,
          fun s2 hs2 h2l h2log => ?_⟩
        exact hmin s2 ((mem_listdir s2 t.segs).mpr hs2) h2l h2log

/-- C3 amended witness: the counterexample tree itself; the minimal
marker-free log segment in `(ctime, name)` order is `"a"`. -/
theorem C3_oldest_log_segment_witness :
    ∃ s ∈ (FsTree.mk true
        [SegDir.mk "b" 5 ["rlog"] true, SegDir.mk "a" 5 ["rlog"] true]).segs,
      hasLockB s = false ∧
      (∃ n ∈ s.files, logNameB n = true ∧ "a/rlog" = mkKey s.name n) ∧
      ∀ s2 ∈ (FsTree.mk true
          [SegDir.mk "b" 5 ["rlog"] true, SegDir.mk "a" 5 ["rlog"] true]).segs,
        hasLockB s2 = false → hasLogB s2 = true → segKeyLe s s2 :=
  C3_oldest_log_segment "/d"
    (FsTree.mk true [SegDir.mk "b" 5 ["rlog"] true, SegDir.mk "a" 5 ["rlog"] true])
    "a/rlog" "/d/a/rlog" rfl

/-- C9 counterexample: a tree whose only segment stops being listable
between the root scan and `os.listdir(path)`.  The `OSError` is not
caught anywhere in `gen_upload_files`, `next_file_to_upload` or
`uploader_fn`, so instead of being "logged, skipped and scanning
continuing", the exception propagates out of the scan and terminates the
loop. -/
theorem C9_counterexample :
    next_file_to_upload "/d" (FsTree.mk true [SegDir.mk "a" 1 ["dcam"] false]) =
      Except.error () ∧
    uploader_iter false "/d" (FsTree.mk true [SegDir.mk "a" 1 ["dcam"] false])
        (UploadEnv.mk true (some 1) (NetOutcome.putResp 200)) (UpState.mk none none) =
      Except.error () :=
  ⟨rfl, rfl⟩

/-- C9 amended: while every segment stays listable, one loop iteration
never raises, and it yields the exit outcome exactly when the
cancellation flag is set; when the scan yields a task, the iteration
continues with a worked outcome carrying the success flag of the actual
`upload` call, for every oracle — compression failure, stat failure,
credential exception and transfer exception are all contained inside
`upload`, which returns failure instead of raising.  (Only those checked
failure modes are contained: a mid-scan listing error, per the
counterexample, propagates and terminates the loop.) -/
theorem C9_loop_exits_only_on_cancel (exitSet : Bool) (root : String) (t : FsTree)
    (env : UploadEnv) (st : UpState) (hread : ∀ s ∈ t.segs, s.readable = true) :
    (∃ o, uploader_iter exitSet root t env st = Except.ok o) ∧
    (uploader_iter exitSet root t env st = Except.ok IterOutcome.exited ↔
      exitSet = true) ∧
    (∀ k fn c, exitSet = false →
      next_file_to_upload root t = Except.ok (some (k, fn, c)) →
      uploader_iter exitSet root t env st =
        Except.ok (IterOutcome.worked (upload k fn env st).success)) := by
  refine ⟨?_, ⟨?_, ?_⟩, ?_⟩
  · cases exitSet with
    | true => exact ⟨IterOutcome.exited, rfl⟩
    | false =>
      obtain ⟨o, ho⟩ := next_file_total root t hread
      unfold uploader_iter
      rw [if_neg (by simp), ho]
      cases o with
      | none => exact ⟨IterOutcome.idle, rfl⟩
      | some d =>
        obtain ⟨k, fn, c⟩ := d
        exact ⟨IterOutcome.worked (upload k fn env st).success, rfl⟩
  · intro hex
    cases exitSet with
    | true => rfl
    | false =>
      exfalso
      unfold uploader_iter at hex
      rw [if_neg (by simp)] at hex
      cases ho : next_file_to_upload root t with
      | error e =>
        rw [ho] at hex
        exact absurd hex (by simp)
      | ok o =>
        rw [ho] at hex
        cases o with
        | none =>
          have h2 : (Except.ok IterOutcome.idle : Except Unit IterOutcome) =
              Except.ok IterOutcome.exited := hex
          simp at h2
        | some d =>
          obtain ⟨k, fn, c⟩ := d
          have h2 : (Except.ok (IterOutcome.worked (upload k fn env st).success) :
              Except Unit IterOutcome) = Except.ok IterOutcome.exited := hex
          simp at h2
  · intro he
    unfold uploader_iter
    rw [if_pos he]
  · intro k fn c hflag hnext
    subst hflag
    unfold uploader_iter
    rw [if_neg (by simp), hnext]

/-- C9 amended witness: flag clear, a readable one-segment tree whose
scan yields the dcam task, and an upload oracle in which the credential
request raises — the iteration still returns normally, as a
failed-worked outcome, not an exit. -/
theorem C9_loop_exits_only_on_cancel_witness :
    (∃ o, uploader_iter false "/d" (FsTree.mk true [SegDir.mk "a" 1 ["dcam"] true])
        (UploadEnv.mk true (some 3) NetOutcome.credRaise) (UpState.mk none none) =
      Except.ok o) ∧
    (uploader_iter false "/d" (FsTree.mk true [SegDir.mk "a" 1 ["dcam"] true])
        (UploadEnv.mk true (some 3) NetOutcome.credRaise) (UpState.mk none none) =
      Except.ok IterOutcome.exited ↔ false = true) ∧
    (∀ k fn c, false = false →
      next_file_to_upload "/d" (FsTree.mk true [SegDir.mk "a" 1 ["dcam"] true]) =
        Except.ok (some (k, fn, c)) →
      uploader_iter false "/d" (FsTree.mk true [SegDir.mk "a" 1 ["dcam"] true])
          (UploadEnv.mk true (some 3) NetOutcome.credRaise) (UpState.mk none none) =
        Except.ok (IterOutcome.worked
          (upload k fn (UploadEnv.mk true (some 3) NetOutcome.credRaise)
            (UpState.mk none none)).success)) :=
  C9_loop_exits_only_on_cancel false "/d"
    (FsTree.mk true [SegDir.mk "a" 1 ["dcam"] true])
    (UploadEnv.mk true (some 3) NetOutcome.credRaise) (UpState.mk none none)
    (by decide)

/-- From the size check on, the cleanup pass always runs. -/
theorem upload_sized_cleanRan (k2 f2 : String) (env : UploadEnv) (st : UpState) :
    (upload_sized k2 f2 env st).cleanRan = env.size.isSome := by
  obtain ⟨cok, esz, enet⟩ := env
  cases esz with
  | none => rfl
  | some sz =>
    by_cases hz : sz = 0
    · subst hz; rfl
    · unfold upload_sized
      simp only [Option.isSome_some]
      rw [if_neg hz]
      split <;> rfl

/-- With a non-zero size, `upload_sized` runs the network phase and
succeeds (deleting the file) exactly on a 200 response. -/
theorem upload_sized_net (k2 f2 : String) (env : UploadEnv) (st : UpState) (sz : Nat)
    (hsz : env.size = some sz) (hnz : sz ≠ 0) :
    ((upload_sized k2 f2 env st).success = true ↔ env.net = NetOutcome.putResp 200) ∧
    (upload_sized k2 f2 env st).fileDeleted = (upload_sized k2 f2 env st).success ∧
    (upload_sized k2 f2 env st).networkAttempted = true := by
  obtain ⟨cok, esz, enet⟩ := env
  simp only at hsz
  subst hsz
  unfold upload_sized
  simp only
  rw [if_neg hnz]
  cases enet with
  | credRaise => simp [normal_upload, do_upload]
  | putRaise => simp [normal_upload, do_upload]
  | putResp s =>
    by_cases hs : s = 200
    · subst hs
      simp [normal_upload, do_upload]
    · simp [normal_upload, do_upload, hs]

/-- C4: whenever the size `upload` checks is zero — for any artifact,
including one whose name ends in `log` (whose checked file is then the
compressed one) — the call reports success, deletes the checked file,
and performs no credential request and no transfer. -/
theorem C4_zero_size_no_network (key fn : String) (env : UploadEnv) (st : UpState)
    (hc : strEndsWith fn "log" = true → env.compressOk = true)
    (hsz : env.size = some 0) :
    (upload key fn env st).success = true ∧
    (upload key fn env st).fileDeleted = true ∧
    (upload key fn env st).networkAttempted = false := by
  by_cases hl : strEndsWith fn "log"
  · simp [upload, upload_sized, hl, hc hl, hsz]
  · simp [upload, upload_sized, hl, hsz]

/-- C4 witness: a zero-byte log artifact. -/
theorem C4_zero_size_no_network_witness :
    (upload "a/qlog" "/d/a/qlog"
        (UploadEnv.mk true (some 0) (NetOutcome.putResp 500)) (UpState.mk none none)).success
      = true ∧
    (upload "a/qlog" "/d/a/qlog"
        (UploadEnv.mk true (some 0) (NetOutcome.putResp 500)) (UpState.mk none none)).fileDeleted
      = true ∧
    (upload "a/qlog" "/d/a/qlog"
        (UploadEnv.mk true (some 0) (NetOutcome.putResp 500)) (UpState.mk none none)).networkAttempted
      = false :=
  C4_zero_size_no_network "a/qlog" "/d/a/qlog"
    (UploadEnv.mk true (some 0) (NetOutcome.putResp 500)) (UpState.mk none none)
    (fun _ => rfl) rfl

/-- C5: on a non-empty artifact (with the compression step passing when
it applies), `upload` succeeds exactly when the transfer produced a 200
response; the file is deleted exactly on success, and the network phase
(credential request plus transfer attempt) always runs.  A missing
response or a raised exception falls under "not a 200 response". -/
theorem C5_success_iff_200 (key fn : String) (env : UploadEnv) (st : UpState) (sz : Nat)
    (hc : strEndsWith fn "log" = true → env.compressOk = true)
    (hsz : env.size = some sz) (hnz : sz ≠ 0) :
    ((upload key fn env st).success = true ↔ env.net = NetOutcome.putResp 200) ∧
    (upload key fn env st).fileDeleted = (upload key fn env st).success ∧
    (upload key fn env st).networkAttempted = true := by
  by_cases hl : strEndsWith fn "log"
  · have hcb : ¬ env.compressOk = false := by simp [hc hl]
    unfold upload
    rw [if_pos hl, if_neg hcb]
    exact upload_sized_net _ _ env st sz hsz hnz
  · unfold upload
    rw [if_neg hl]
    exact upload_sized_net _ _ env st sz hsz hnz

/-- C5 witnesses: a 500 response on a camera file leaves it in place. -/
theorem C5_success_iff_200_witness :
    (((upload "a/fcam" "/d/a/fcam"
        (UploadEnv.mk true (some 7) (NetOutcome.putResp 500)) (UpState.mk none none)).success
      = true ↔
        (UploadEnv.mk true (some 7) (NetOutcome.putResp 500)).net = NetOutcome.putResp 200) ∧
    (upload "a/fcam" "/d/a/fcam"
        (UploadEnv.mk true (some 7) (NetOutcome.putResp 500)) (UpState.mk none none)).fileDeleted
      = (upload "a/fcam" "/d/a/fcam"
        (UploadEnv.mk true (some 7) (NetOutcome.putResp 500)) (UpState.mk none none)).success ∧
    (upload "a/fcam" "/d/a/fcam"
        (UploadEnv.mk true (some 7) (NetOutcome.putResp 500)) (UpState.mk none none)).networkAttempted
      = true) :=
  C5_success_iff_200 "a/fcam" "/d/a/fcam"
    (UploadEnv.mk true (some 7) (NetOutcome.putResp 500)) (UpState.mk none none) 7
    (fun h => absurd h (by decide)) rfl (by decide)

/-- C8: a failed compression step on a `log`-named artifact returns
failure with no deletion, no credential request and no transfer, leaving
key and path untouched. -/
theorem C8_compression_failure (key fn : String) (env : UploadEnv) (st : UpState)
    (hl : strEndsWith fn "log" = true) (hc : env.compressOk = false) :
    (upload key fn env st).success = false ∧
    (upload key fn env st).fileDeleted = false ∧
    (upload key fn env st).networkAttempted = false ∧
    (upload key fn env st).finalFn = fn ∧
    (upload key fn env st).finalKey = key := by
  unfold upload
  rw [if_pos hl, if_pos hc]
  exact ⟨rfl, rfl, rfl, rfl, rfl⟩

/-- C8 witness: bzip2 fails on an rlog. -/
theorem C8_compression_failure_witness :
    (upload "a/rlog" "/d/a/rlog"
        (UploadEnv.mk false (some 9) (NetOutcome.putResp 200)) (UpState.mk none none)).success
      = false ∧
    (upload "a/rlog" "/d/a/rlog"
        (UploadEnv.mk false (some 9) (NetOutcome.putResp 200)) (UpState.mk none none)).fileDeleted
      = false ∧
    (upload "a/rlog" "/d/a/rlog"
        (UploadEnv.mk false (some 9) (NetOutcome.putResp 200)) (UpState.mk none none)).networkAttempted
      = false ∧
    (upload "a/rlog" "/d/a/rlog"
        (UploadEnv.mk false (some 9) (NetOutcome.putResp 200)) (UpState.mk none none)).finalFn
      = "/d/a/rlog" ∧
    (upload "a/rlog" "/d/a/rlog"
        (UploadEnv.mk false (some 9) (NetOutcome.putResp 200)) (UpState.mk none none)).finalKey
      = "a/rlog" :=
  C8_compression_failure "a/rlog" "/d/a/rlog"
    (UploadEnv.mk false (some 9) (NetOutcome.putResp 200)) (UpState.mk none none)
    rfl rfl

/-- C6 counterexample: a failed compression on an rlog returns from
`upload` before `clean_dirs` is reached, so no cleanup pass runs on that
call — the claim that every call ends with the cleanup pass is false. -/
theorem C6_counterexample :
    (upload "a/rlog" "/d/a/rlog"
        (UploadEnv.mk false (some 5) (NetOutcome.putResp 200)) (UpState.mk none none)).cleanRan
      = false :=
  rfl

/-- A cleanup pass over readable segments removes exactly the empty
directories. -/
theorem clean_dirs_go_filter : ∀ l : List SegDir, (∀ s ∈ l, s.readable = true) →
    clean_dirs_go l = l.filter (fun s => !s.files.isEmpty)
  | [], _ => rfl
  | s :: rest, h => by
    unfold clean_dirs_go
    have hr : ¬ s.readable = false := by
      simp [h s (List.mem_cons_self _ _)]
    rw [if_neg hr, List.filter_cons]
    have ih := clean_dirs_go_filter rest (fun x hx => h x (List.mem_cons_of_mem _ hx))
    by_cases he : s.files.isEmpty
    · rw [if_pos he]
      simp only [he, Bool.not_true, Bool.false_eq_true, if_false]
      exact ih
    · rw [if_neg he]
      have hb : s.files.isEmpty = false := by
        cases hfe : s.files.isEmpty
        · rfl
        · exact absurd hfe he
      simp only [hb, Bool.not_false, if_true]
      rw [ih]

/-- C6 amended: the cleanup pass runs exactly on the calls that reach
the size check — zero-size deletion, transfer success and transfer
failure — and not on the compression-failure or stat-failure early
returns; when it runs over readable segments it removes precisely the
segment directories that hold zero artifacts. -/
theorem C6_cleanup_on_size_checked_paths (key fn : String) (env : UploadEnv)
    (st : UpState) (t : FsTree) :
    ((upload key fn env st).cleanRan = true ↔
      ((strEndsWith fn "log" = true → env.compressOk = true) ∧ env.size.isSome = true)) ∧
    ((∀ s ∈ t.segs, s.readable = true) →
      (clean_dirs t).segs = t.segs.filter (fun s => !s.files.isEmpty)) := by
  constructor
  · by_cases hl : strEndsWith fn "log"
    · cases hcc : env.compressOk with
      | false =>
        unfold upload
        rw [if_pos hl, if_pos hcc]
        simp [hl, hcc]
      | true =>
        have hcb : ¬ env.compressOk = false := by simp [hcc]
        unfold upload
        rw [if_pos hl, if_neg hcb]
        rw [upload_sized_cleanRan]
        simp [hl, hcc]
    · unfold upload
      rw [if_neg hl]
      rw [upload_sized_cleanRan]
      simp [hl]
  · intro hread
    unfold clean_dirs
    simp only
    rw [clean_dirs_go_filter t.segs hread]

/-- C6 amended witness: a zero-size upload runs the cleanup, which
prunes the emptied segment. -/
theorem C6_cleanup_on_size_checked_paths_witness :
    (((upload "a/qlog" "/d/a/qlog"
        (UploadEnv.mk true (some 0) (NetOutcome.putResp 500)) (UpState.mk none none)).cleanRan
      = true ↔
      ((strEndsWith "/d/a/qlog" "log" = true →
          (UploadEnv.mk true (some 0) (NetOutcome.putResp 500)).compressOk = true) ∧
        (UploadEnv.mk true (some 0) (NetOutcome.putResp 500)).size.isSome = true)) ∧
    ((∀ s ∈ (FsTree.mk true [SegDir.mk "a" 1 ([] : List String) true]).segs,
        s.readable = true) →
      (clean_dirs (FsTree.mk true [SegDir.mk "a" 1 ([] : List String) true])).segs =
        (FsTree.mk true [SegDir.mk "a" 1 ([] : List String) true]).segs.filter
          (fun s => !s.files.isEmpty))) :=
  C6_cleanup_on_size_checked_paths "a/qlog" "/d/a/qlog"
    (UploadEnv.mk true (some 0) (NetOutcome.putResp 500)) (UpState.mk none none)
    (FsTree.mk true [SegDir.mk "a" 1 ([] : List String) true])

/-- C10: `normal_upload` returns normally on every outcome of
`do_upload` (its Lean type is total — every exception from the
credential request or the transfer is swallowed by the bare `except`),
its returned value is always the `last_resp` field it leaves behind
(`none` whenever the put never completed), the incoming state is fully
reset at the start of the attempt, and on an exception the captured
error sits in `last_exc`. -/
theorem C10_normal_upload_catches_all (net : NetOutcome) (st : UpState) :
    ((normal_upload net st).1 = (normal_upload net st).2.last_resp) ∧
    (normal_upload net st = normal_upload net (UpState.mk none none)) ∧
    (match net with
     | NetOutcome.credRaise =>
        (normal_upload net st).1 = none ∧
        (normal_upload net st).2.last_exc = some UploadExc.credExc
     | NetOutcome.putRaise =>
        (normal_upload net st).1 = none ∧
        (normal_upload net st).2.last_exc = some UploadExc.transferExc
     | NetOutcome.putResp s =>
        (normal_upload net st).1 = some s ∧
        (normal_upload net st).2.last_exc = none) := by
  obtain ⟨r0, e0⟩ := st
  cases net <;> simp [normal_upload, do_upload]

/-- A run of consecutive failures records one sleep per failure. -/
theorem run_uploads_fail_len : ∀ (us : List ℚ) (b : ℚ),
    (run_uploads (us.map (fun v => (false, v))) b).1.length = us.length
  | [], _ => rfl
  | v :: rest, b => by
    simp only [List.map_cons, run_uploads, Bool.false_eq_true, if_false, List.length_cons]
    rw [run_uploads_fail_len rest (2 * b)]

/-- In a run of consecutive failures starting at backoff `b`, the k-th
recorded sleep (0-indexed) is `2 ^ k * b` plus the jitter `u * (2 ^ k * b)`
drawn for it. -/
theorem run_uploads_fail_get : ∀ (us : List ℚ) (b : ℚ) (k : Nat) (u : ℚ),
    us[k]? = some u →
    (run_uploads (us.map (fun v => (false, v))) b).1[k]? =
      some ⟨2 ^ k * b, u * (2 ^ k * b)⟩
  | [], _, k, u, h => by simp at h
  | v :: rest, b, 0, u, h => by
    rw [List.getElem?_cons_zero] at h
    have hv : v = u := by simpa using h
    subst hv
    simp only [List.map_cons, run_uploads, Bool.false_eq_true, if_false,
      List.getElem?_cons_zero, pow_zero, one_mul]
  | v :: rest, b, k + 1, u, h => by
    rw [List.getElem?_cons_succ] at h
    have ih := run_uploads_fail_get rest (2 * b) k u h
    simp only [List.map_cons, run_uploads, Bool.false_eq_true, if_false,
      List.getElem?_cons_succ]
    rw [ih]
    have harith : (2 : ℚ) ^ k * (2 * b) = 2 ^ (k + 1) * b := by ring
    rw [harith]

/-- C7: over any sequence of consecutive failed uploads starting from a
fresh backoff, the pre-jitter sleep before the k-th retry (0-indexed
`k`, matching `2 ^ (k-1) * B` of the claim for the 1-indexed k-th) is
`2 ^ k * 0.1`; the jitter recorded with it is `u * backoff` for the
uniform draw `u ∈ [0,1)` and so lies in `[0, current backoff)`; and a
successful upload resets the backoff to the 0.1 base. -/
theorem C7_backoff_doubling (us : List ℚ) (hu : ∀ u ∈ us, 0 ≤ u ∧ u < 1) :
    ((run_uploads (us.map (fun v => (false, v))) backoff_base).1.length = us.length) ∧
    (∀ k u, us[k]? = some u →
      (run_uploads (us.map (fun v => (false, v))) backoff_base).1[k]? =
        some ⟨2 ^ k * backoff_base, u * (2 ^ k * backoff_base)⟩ ∧
      0 ≤ u * (2 ^ k * backoff_base) ∧
      u * (2 ^ k * backoff_base) < 2 ^ k * backoff_base) ∧
    (∀ b u : ℚ, (run_uploads [(true, u)] b).2 = backoff_base) := by
  refine ⟨run_uploads_fail_len us backoff_base, fun k u hk => ?_, fun b u => rfl⟩
  have hbpos : (0 : ℚ) < backoff_base := by norm_num [backoff_base]
  have hpos : (0 : ℚ) < 2 ^ k * backoff_base := by positivity
  obtain ⟨hu0, hu1⟩ := hu u (List.getElem?_mem hk)
  refine ⟨run_uploads_fail_get us backoff_base k u hk,
    mul_nonneg hu0 hpos.le, ?_⟩
  calc u * (2 ^ k * backoff_base) < 1 * (2 ^ k * backoff_base) :=
        mul_lt_mul_of_pos_right hu1 hpos
    _ = 2 ^ k * backoff_base := one_mul _

/-- C7 witness: three consecutive failures with concrete jitter draws
sleep 0.1, 0.2 and 0.4 seconds. -/
theorem C7_backoff_doubling_witness :
    ((run_uploads (([0, 0, 0] : List ℚ).map (fun v => (false, v))) backoff_base).1.length
      = ([0, 0, 0] : List ℚ).length) ∧
    (∀ k u, ([0, 0, 0] : List ℚ)[k]? = some u →
      (run_uploads (([0, 0, 0] : List ℚ).map (fun v => (false, v))) backoff_base).1[k]? =
        some ⟨2 ^ k * backoff_base, u * (2 ^ k * backoff_base)⟩ ∧
      0 ≤ u * (2 ^ k * backoff_base) ∧
      u * (2 ^ k * backoff_base) < 2 ^ k * backoff_base) ∧
    (∀ b u : ℚ, (run_uploads [(true, u)] b).2 = backoff_base) :=
  C7_backoff_doubling [0, 0, 0] (by decide)
